import Mathlib

/-!
Shallow embedding of the RLE codec in `pycoder.py` (module `pycoder`).

Bytes are modelled as `Nat` (the Python code reads one byte at a time,
each a value in 0..255); byte streams are `List Nat`.  The two exception
kinds used by the module (`ValueError` for an unknown method tag and the
`assert` failures on truncated streams, which the specification calls
`UnknownMethod` and `MalformedStream`) become an error type `RleErr`, and
fallible decoding returns `Except RleErr (List Nat)`.
-/

set_option maxRecDepth 20000

namespace Pycoder

/-- Error kinds of decoding, per the specification's error-handling design:
`unknownMethod` is the `ValueError` raised by `decode_rle` when the tag
byte matches neither method, `malformedStream` is the `assert` failure of
`_decode_mA` (odd payload) or `_decode_mB` (missing count byte). -/
inductive RleErr where
  | unknownMethod
  | malformedStream
deriving DecidableEq, Repr

/-- Tag byte of method A: `METHOD_A = b'\x21'` (33). -/
def METHOD_A : Nat := 0x21

/-- Tag byte of method B: `METHOD_B = b'\x8a'` (138). -/
def METHOD_B : Nat := 0x8a

/-- Loop body of `_do_encode`, parametrised by the `write_fn` callback
(`write curr count` is the list of items `write_fn(curr_byte, count)`
appends to the output).  The state is `(curr_byte, count)` and the third
argument is the part of the input not yet read.  The `[]` case is the
final `if curr_byte: write_fn(curr_byte, count)` after the `for` loop:
this function is only entered when the input is nonempty, so `curr_byte`
is nonempty there and the write always happens — note that it happens
even when `count = 0`. -/
def doEncodeLoop (write : Nat → Nat → List α) : Nat → Nat → List Nat → List α
  | curr, count, [] => write curr count
  | curr, count, next :: rest =>
    if next = curr then
      if count + 1 = 255 then
        write curr 255 ++ doEncodeLoop write curr 0 rest
      else
        doEncodeLoop write curr (count + 1) rest
    else
      (if count ≠ 0 then write curr count else []) ++ doEncodeLoop write next 1 rest

/-- `_do_encode(in_, write_fn)`: read the first byte (empty input writes
nothing, since `curr_byte = b''` is falsy at the final flush), then run
the scan loop with `curr_byte` the first byte and `count = 1`. -/
def doEncode (write : Nat → Nat → List α) : List Nat → List α
  | [] => []
  | b :: rest => doEncodeLoop write b 1 rest

/-- The `write_fn` of `_encode_mA`: the count byte, then the byte itself. -/
def writeA (curr count : Nat) : List Nat := [count, curr]

/-- The `write_fn` of `_encode_mB`: the byte once, and when `count > 1`
the byte a second time followed by the count byte. -/
def writeB (curr count : Nat) : List Nat :=
  if count > 1 then [curr, curr, count] else [curr]

/-- `_encode_mA(in_, out)`: the bytes written to `out` (after the tag). -/
def encode_mA : List Nat → List Nat := doEncode writeA

/-- `_encode_mB(in_, out)`: the bytes written to `out` (after the tag). -/
def encode_mB : List Nat → List Nat := doEncode writeB

/-- The `(count, value)` pairs the shared scan loop `_do_encode` reports
to its `write_fn` callback, in order. -/
def runPairs : List Nat → List (Nat × Nat) :=
  doEncode (fun curr count => [(count, curr)])

/-- The two encoding methods `encode_rle` accepts
(`assert method in [METHOD_A, METHOD_B]`). -/
inductive Method where
  | mA
  | mB
deriving DecidableEq, Repr

/-- Tag byte written by `encode_rle` for each method. -/
def tagOf : Method → Nat
  | .mA => METHOD_A
  | .mB => METHOD_B

/-- The `encode_fn` dictionary dispatch of `encode_rle`. -/
def encodeFnOf : Method → List Nat → List Nat
  | .mA => encode_mA
  | .mB => encode_mB

/-- `encode_rle`: write the 1-byte method tag, then the encoded payload. -/
def encode_rle (m : Method) (s : List Nat) : List Nat :=
  tagOf m :: encodeFnOf m s

/-- `_decode_mA(in_, out)`: read two bytes at a time; a final chunk of a
single byte fails the `assert len(pair) == 2` (malformed stream);
otherwise write `count` copies of the value byte and continue. -/
def decode_mA : List Nat → Except RleErr (List Nat)
  | [] => .ok []
  | [_] => .error .malformedStream
  | count :: v :: rest =>
    Except.map (fun t => List.replicate count v ++ t) (decode_mA rest)

/-- `_decode_mB(in_, out)`: each iteration reads `b1, b2`.  Exhausted
`b1` ends the loop; `b2` absent or different from `b1` emits `b1` once,
with a present `b2` pushed back (`in_.seek(-1, io.SEEK_CUR)`), modelled
by the recursive call receiving `b2 :: rest`; `b2 = b1` reads the count
byte `b3`, whose absence fails the `assert b3` (malformed stream), and
emits `b1` repeated `b3` times. -/
def decode_mB : List Nat → Except RleErr (List Nat)
  | [] => .ok []
  | [b1] => .ok [b1]
  | b1 :: b2 :: rest =>
    if b1 = b2 then
      match rest with
      | [] => .error .malformedStream
      | b3 :: rest2 =>
        Except.map (fun t => List.replicate b3 b1 ++ t) (decode_mB rest2)
    else
      Except.map (fun t => b1 :: t) (decode_mB (b2 :: rest))
  termination_by s => s.length
  decreasing_by all_goals simp +arith

/-- `decode_rle`, with its observable effect on the output file: the
first component records whether the output file is opened (in the
source, `open(out_file_path, ...)` runs only after the tag is read and
found in the decoder dictionary; an unknown tag raises before the file
is touched), the second component is the decode result written to it. -/
def decodeRleEff (s : List Nat) : Bool × Except RleErr (List Nat) :=
  match s with
  | [] => (false, .error .unknownMethod)
  | t :: rest =>
    if t = METHOD_A then (true, decode_mA rest)
    else if t = METHOD_B then (true, decode_mB rest)
    else (false, .error .unknownMethod)

/-- `decode_rle`: the decode result alone. -/
def decode_rle (s : List Nat) : Except RleErr (List Nat) :=
  (decodeRleEff s).2

/-- Truncation condition of the method-B payload, following the scan of
`_decode_mB`: `true` exactly when the scan reaches a doubled byte pair
with no count byte after it (the stream ends in the middle of a
`[value][value][count]` token).  This is the specification's
malformed-stream condition for method B, expressed as a predicate on
the payload. -/
def mBstuck : List Nat → Bool
  | [] => false
  | [_] => false
  | b1 :: b2 :: rest =>
    if b1 = b2 then
      match rest with
      | [] => true
      | _ :: rest2 => mBstuck rest2
    else mBstuck (b2 :: rest)
  termination_by s => s.length
  decreasing_by all_goals simp +arith

/-! ### Unfolding lemmas

`decode_mB` and `mBstuck` are defined by well-founded recursion (the
pushback re-reads `b2`), so we record their step equations as rewrite
lemmas. -/

theorem decode_mB_cons_ne {b1 b2 : Nat} (rest : List Nat) (h : b1 ≠ b2) :
    decode_mB (b1 :: b2 :: rest) =
      Except.map (fun t => b1 :: t) (decode_mB (b2 :: rest)) := by
  conv_lhs => rw [decode_mB.eq_def]
  simp [h]

theorem decode_mB_pair (b c : Nat) (rest : List Nat) :
    decode_mB (b :: b :: c :: rest) =
      Except.map (fun t => List.replicate c b ++ t) (decode_mB rest) := by
  conv_lhs => rw [decode_mB.eq_def]
  simp

theorem decode_mB_pair_end (b : Nat) :
    decode_mB [b, b] = .error .malformedStream := by
  conv_lhs => rw [decode_mB.eq_def]
  simp

theorem mBstuck_cons_ne {b1 b2 : Nat} (rest : List Nat) (h : b1 ≠ b2) :
    mBstuck (b1 :: b2 :: rest) = mBstuck (b2 :: rest) := by
  conv_lhs => rw [mBstuck.eq_def]
  simp [h]

theorem mBstuck_pair (b c : Nat) (rest : List Nat) :
    mBstuck (b :: b :: c :: rest) = mBstuck rest := by
  conv_lhs => rw [mBstuck.eq_def]
  simp

theorem mBstuck_pair_end (b : Nat) : mBstuck [b, b] = true := by
  conv_lhs => rw [mBstuck.eq_def]
  simp

/-! ### Error characterisation of the decoders -/

theorem decode_mA_error_iff (p : List Nat) :
    decode_mA p = .error .malformedStream ↔ Odd p.length := by
  induction p using decode_mA.induct with
  | case1 => simp [decode_mA, Nat.odd_iff]
  | case2 b => simp [decode_mA, Nat.odd_iff]
  | case3 c v rest ih =>
    have hlen : Odd (c :: v :: rest).length ↔ Odd rest.length := by
      simp [Nat.odd_iff]; omega
    rw [hlen, ← ih]
    cases h : decode_mA rest <;> simp [decode_mA, Except.map, h]

theorem decode_mA_isOk_iff (p : List Nat) :
    (decode_mA p).isOk = true ↔ Even p.length := by
  induction p using decode_mA.induct with
  | case1 => simp [decode_mA, Except.isOk, Except.toBool]
  | case2 b => simp [decode_mA, Except.isOk, Except.toBool, Nat.even_iff]
  | case3 c v rest ih =>
    have hlen : Even (c :: v :: rest).length ↔ Even rest.length := by
      simp [Nat.even_iff]; omega
    rw [hlen, ← ih]
    cases h : decode_mA rest <;>
      simp [decode_mA, Except.map, Except.isOk, Except.toBool, h]

theorem decode_mB_error_iff (p : List Nat) :
    decode_mB p = .error .malformedStream ↔ mBstuck p = true := by
  induction p using decode_mB.induct with
  | case1 => simp [decode_mB, mBstuck]
  | case2 b => simp [decode_mB, mBstuck]
  | case3 b1 => simp [decode_mB_pair_end, mBstuck_pair_end]
  | case4 b1 b3 rest2 ih =>
    rw [mBstuck_pair, ← ih, decode_mB_pair]
    cases hd : decode_mB rest2 <;> simp [Except.map, hd]
  | case5 b1 b2 rest h ih =>
    rw [mBstuck_cons_ne rest h, ← ih, decode_mB_cons_ne rest h]
    cases hd : decode_mB (b2 :: rest) <;> simp [Except.map, hd]

theorem decode_mB_isOk_iff (p : List Nat) :
    (decode_mB p).isOk = true ↔ mBstuck p = false := by
  induction p using decode_mB.induct with
  | case1 => simp [decode_mB, mBstuck, Except.isOk, Except.toBool]
  | case2 b => simp [decode_mB, mBstuck, Except.isOk, Except.toBool]
  | case3 b1 =>
    simp [decode_mB_pair_end, mBstuck_pair_end, Except.isOk, Except.toBool]
  | case4 b1 b3 rest2 ih =>
    rw [mBstuck_pair, ← ih, decode_mB_pair]
    cases hd : decode_mB rest2 <;>
      simp [Except.map, Except.isOk, Except.toBool, hd]
  | case5 b1 b2 rest h ih =>
    rw [mBstuck_cons_ne rest h, ← ih, decode_mB_cons_ne rest h]
    cases hd : decode_mB (b2 :: rest) <;>
      simp [Except.map, Except.isOk, Except.toBool, hd]

theorem decode_mA_error_kind (p : List Nat) (e : RleErr)
    (h : decode_mA p = .error e) : e = .malformedStream := by
  rcases Nat.even_or_odd p.length with hev | hodd
  · have hok := (decode_mA_isOk_iff p).mpr hev
    rw [h] at hok
    simp [Except.isOk, Except.toBool] at hok
  · have herr := (decode_mA_error_iff p).mpr hodd
    rw [h] at herr
    exact Except.error.inj herr

theorem decode_mB_error_kind (p : List Nat) (e : RleErr)
    (h : decode_mB p = .error e) : e = .malformedStream := by
  cases hst : mBstuck p with
  | false =>
    have hok := (decode_mB_isOk_iff p).mpr hst
    rw [h] at hok
    simp [Except.isOk, Except.toBool] at hok
  | true =>
    have herr := (decode_mB_error_iff p).mpr hst
    rw [h] at herr
    exact Except.error.inj herr

/-! ### Pass-through of non-repeating input under method B -/

theorem doEncodeLoop_writeB_chain (rest : List Nat) : ∀ curr : Nat,
    List.Chain' (fun a b => a ≠ b) (curr :: rest) →
    doEncodeLoop writeB curr 1 rest = curr :: rest := by
  induction rest with
  | nil => intro curr _; simp [doEncodeLoop, writeB]
  | cons next rest2 ih =>
    intro curr hch
    rw [List.chain'_cons] at hch
    have hne : ¬ next = curr := fun hh => hch.1 hh.symm
    simp [doEncodeLoop, hne, writeB, ih next hch.2]

/-! ### Claims -/

/-- C1.  The claim states that `decode(encode(S, method)) = S` for every
byte sequence `S` and both methods.  The code violates it for method B:
on an input of 255 identical bytes the final flush of `_do_encode` runs
with `count = 0` (the 255-cap just reset it) and `_encode_mB` then
writes the byte once more, producing the payload `WW\xffW` for
`b'W' * 255` — the same payload as for `b'W' * 256` — which decodes to
256 bytes, not 255. -/
theorem c1_roundTrip_mB_fails_at_255 :
    decode_rle (encode_rle Method.mB (List.replicate 255 87)) =
      .ok (List.replicate 256 87) ∧
    (List.replicate 256 87 : List Nat) ≠ List.replicate 255 87 := by
  constructor
  · have henc : encode_rle Method.mB (List.replicate 255 87) =
        [138, 87, 87, 255, 87] := by decide
    rw [henc]
    have hdis : decode_rle [138, 87, 87, 255, 87] =
        decode_mB [87, 87, 255, 87] := rfl
    rw [hdis, decode_mB_pair]
    simp [decode_mB, Except.map]
  · intro h
    have hlen := congrArg List.length h
    simp at hlen

/-- C2.  The claim states that a run of exactly 255 identical bytes
encodes under method A to the single pair `[0xFF, byte]`, and a run of
256 to `[0xFF, byte]` then `[0x01, byte]`.  The second half holds, but
for exactly 255 bytes the final flush of `_do_encode` fires with
`count = 0` and the encoder appends a second pair `[0x00, byte]`. -/
theorem c2_runCap_encode_mA_at_255_and_256 :
    encode_mA (List.replicate 255 87) = [255, 87, 0, 87] ∧
    encode_mA (List.replicate 256 87) = [255, 87, 1, 87] := by
  constructor <;> decide

/-- C3.  The claim states that every `(count, value)` pair reported by
the shared scan loop has `count ∈ [1, 255]` and that a count of 0 never
occurs in encoder output.  The code violates it: when the input ends in
a run whose length is a positive multiple of 255, the final flush of
`_do_encode` reports a pair with count 0 (here `(0, 87)` for an input
of 255 bytes `87`), which `_encode_mA` writes as the count byte `0x00`. -/
theorem c3_runPairs_zero_count_at_255 :
    runPairs (List.replicate 255 87) = [(255, 87), (0, 87)] := by decide

/-- C4.  Decoding fails with a malformed-stream error exactly when a
required multi-byte token is truncated: the method-A decoder fails
exactly on payloads of odd length (the `assert len(pair) == 2`), and
the method-B decoder fails exactly when its scan reaches a doubled byte
pair with no count byte after it (the `assert b3`); in all other cases
both decoders succeed, so no other error ever arises from a payload
decoder. -/
theorem c4_malformed_iff_truncated :
    (∀ p : List Nat,
        decode_mA p = .error .malformedStream ↔ Odd p.length) ∧
    (∀ p : List Nat, (decode_mA p).isOk = true ↔ Even p.length) ∧
    (∀ p : List Nat,
        decode_mB p = .error .malformedStream ↔ mBstuck p = true) ∧
    (∀ p : List Nat, (decode_mB p).isOk = true ↔ mBstuck p = false) :=
  ⟨decode_mA_error_iff, decode_mA_isOk_iff,
   decode_mB_error_iff, decode_mB_isOk_iff⟩

/-- C5.  For every stream whose first byte is neither the method-A tag
`0x21` nor the method-B tag `0x8a`, `decode_rle` fails with the
unknown-method error, and neither decoder runs: the dispatch returns
before the output file is opened (first component `false`) and the
result is the error, independent of both decoders. -/
theorem c5_unknown_tag_rejected (t : Nat) (rest : List Nat)
    (hA : t ≠ METHOD_A) (hB : t ≠ METHOD_B) :
    decodeRleEff (t :: rest) = (false, .error .unknownMethod) := by
  simp [decodeRleEff, hA, hB]

/-- Witness for C5 at the concrete stream `[0x00]`. -/
theorem c5_unknown_tag_rejected_witness :
    decodeRleEff [0] = (false, .error .unknownMethod) :=
  c5_unknown_tag_rejected 0 [] (by decide) (by decide)

/-- C6.  Encoding the empty sequence under either method produces just
the 1-byte tag, and decoding a 1-byte stream holding a valid tag with
empty payload produces the empty sequence. -/
theorem c6_empty_input :
    encode_rle Method.mA [] = [METHOD_A] ∧
    encode_rle Method.mB [] = [METHOD_B] ∧
    decode_rle [METHOD_A] = .ok [] ∧
    decode_rle [METHOD_B] = .ok [] := by
  refine ⟨rfl, rfl, rfl, ?_⟩
  simp [decode_rle, decodeRleEff, decode_mB, METHOD_A, METHOD_B]

/-- C7.  For every input in which no two adjacent bytes are equal, the
method-B encoder's payload is the input unchanged: the scan reports
every byte as a run of length 1 and `_encode_mB` writes each such byte
exactly once, with no doubled bytes and no count bytes. -/
theorem c7_mB_passthrough (s : List Nat)
    (h : List.Chain' (fun a b => a ≠ b) s) : encode_mB s = s := by
  cases s with
  | nil => rfl
  | cons b rest => exact doEncodeLoop_writeB_chain rest b h

/-- Witness for C7 at the concrete input `b'ABC'`. -/
theorem c7_mB_passthrough_witness : encode_mB [65, 66, 67] = [65, 66, 67] :=
  c7_mB_passthrough [65, 66, 67] (by simp [List.chain'_cons])

/-- C8.  The method-B decoder, on a doubled pair followed by the count
byte 1, emits the byte exactly once and keeps decoding the rest of the
stream; it never rejects a count of 1. -/
theorem c8_mB_count_one_tolerated (v : Nat) (rest : List Nat) :
    decode_mB (v :: v :: 1 :: rest) =
      Except.map (fun t => v :: t) (decode_mB rest) := by
  simp [decode_mB]

/-- C9.  The method-A decoder, on a pair whose count byte is 0, emits
zero copies of the value byte and continues decoding unchanged:
count-0 pairs are tolerated, never rejected. -/
theorem c9_mA_zero_count_tolerated (v : Nat) (rest : List Nat) :
    decode_mA (0 :: v :: rest) = decode_mA rest := by
  simp [decode_mA]
  cases decode_mA rest <;> simp [Except.map]

/-- C10.  Whenever `decode_rle` fails with the unknown-method error, the
output file was never opened or written: the tag is read and checked
before `open(out_file_path, ...)` runs, and the payload decoders can
only fail with the malformed-stream error, so an unknown-method result
always comes from the dispatch, where the sink is still untouched. -/
theorem c10_sink_untouched_on_unknown (s : List Nat)
    (h : (decodeRleEff s).2 = .error .unknownMethod) :
    (decodeRleEff s).1 = false := by
  cases s with
  | nil => rfl
  | cons t rest =>
    by_cases hA : t = METHOD_A
    · exfalso
      have h2 : decode_mA rest = .error .unknownMethod := by
        simpa [decodeRleEff, hA] using h
      have hk := decode_mA_error_kind rest _ h2
      simp at hk
    · by_cases hB : t = METHOD_B
      · exfalso
        have h2 : decode_mB rest = .error .unknownMethod := by
          simpa [decodeRleEff, hA, hB] using h
        have hk := decode_mB_error_kind rest _ h2
        simp at hk
      · simp [decodeRleEff, hA, hB]

/-- Witness for C10 at the concrete stream `[0x00, 0x01]`. -/
theorem c10_sink_untouched_on_unknown_witness :
    (decodeRleEff [0, 1]).2 = .error .unknownMethod ∧
    (decodeRleEff [0, 1]).1 = false :=
  ⟨rfl, c10_sink_untouched_on_unknown [0, 1] rfl⟩

end Pycoder
